import Mathlib

/-!
Shallow embedding of the segment-extraction core of mixtape.py.

Decoded audio is a `Wav` (sample rate plus sample data); extraction
strategies turn a list of decoded input files into labeled `Segment`
lists; `write_segments_to_wav` concatenates them while enforcing the
sample-rate invariant. Python float parameters are modelled as
rationals, Python int() truncation as `pyInt`, and Python list slicing
(with its negative-index and clamping semantics) as `pySlice` and
`pySliceFrom`. The external decoder adapter is modelled by pairing each
input file name with its decoded buffer (`InFile`): the strategies read
the buffer where the source calls input_wav. Python runtime errors that
the embedded code can raise (IndexError from inputs[0] on an empty
list, AssertionError from a bare assert, TypeError from comparing None
with a number, argparse parser.error) are the constructors of `PyErr`,
together with the InvalidInput error that the specification postulates.
The unbounded while loop of extract_slice is modelled with explicit
fuel: `none` means the loop did not finish within the given fuel.
-/

/-- Decoded audio: namedtuple Wav(sample_rate, data) in the source. -/
structure Wav where
  sample_rate : ℕ
  data : List ℤ
deriving DecidableEq

/-- Labeled audio span: namedtuple Segment(time, wav) in the source. -/
structure Segment where
  time : String
  wav : Wav
deriving DecidableEq

/-- Input file together with its decoded buffer, standing for the
external decode adapter applied to the file name. -/
structure InFile where
  name : String
  wav : Wav
deriving DecidableEq

/-- Python runtime errors reachable in the embedded code, plus the
InvalidInput error postulated by the specification (never produced by
the source). -/
inductive PyErr where
  | indexError
  | typeError
  | assertionError (msg : String)
  | parserError (msg : String)
  | invalidInput
deriving DecidableEq

/-- Python int() conversion applied to a float: truncation toward zero. -/
def pyInt (q : ℚ) : ℤ := if 0 ≤ q then ⌊q⌋ else ⌈q⌉

/-- Normalisation of a Python slice endpoint against a list of length n:
negative endpoints count from the end and clamp at 0, nonnegative ones
clamp at n. -/
def pyIdx (n : ℕ) (i : ℤ) : ℕ := if i < 0 then (n + i).toNat else min i.toNat n

/-- Python slice l[a:b]. -/
def pySlice (l : List α) (a b : ℤ) : List α :=
  (l.take (pyIdx l.length b)).drop (pyIdx l.length a)

/-- Python slice l[a:]. -/
def pySliceFrom (l : List α) (a : ℤ) : List α :=
  l.drop (pyIdx l.length a)

/-- format_time from the source: divmod of the elapsed seconds by 60,
then percent-u formatting with zero padding, which truncates floats. -/
def format_time (seconds : ℚ) : String :=
  let mins : ℤ := ⌊seconds / 60⌋
  let secs : ℤ := pyInt (seconds - 60 * (mins : ℚ))
  toString mins ++ ":" ++ (if secs < 10 then "0" else "") ++ toString secs

/-- Segment built by extract_beginning: data[0 : int(length * sample_rate)]. -/
def beginning_segment (length : ℚ) (f : InFile) : Segment :=
  ⟨f.name ++ ": First " ++ toString length ++ " seconds",
   ⟨f.wav.sample_rate, pySlice f.wav.data 0 (pyInt (length * (f.wav.sample_rate : ℚ)))⟩⟩

/-- extract_beginning: one segment taken from the front of the first
input file; inputs[0] raises IndexError on an empty list. -/
def extract_beginning (length : ℚ) : List InFile → Except PyErr (List Segment)
  | [] => .error .indexError
  | f :: _ => .ok [beginning_segment length f]

/-- Segment built by extract_end: data[-int(length * sample_rate):]. -/
def end_segment (length : ℚ) (f : InFile) : Segment :=
  ⟨f.name ++ ": Last " ++ toString length ++ " seconds",
   ⟨f.wav.sample_rate, pySliceFrom f.wav.data (-(pyInt (length * (f.wav.sample_rate : ℚ))))⟩⟩

/-- extract_end: one segment taken from the tail of the first input
file; inputs[0] raises IndexError on an empty list. -/
def extract_end (length : ℚ) : List InFile → Except PyErr (List Segment)
  | [] => .error .indexError
  | f :: _ => .ok [end_segment length f]

/-- While loop of extract_slice for one input file, with explicit fuel:
starting from cursor begin_pos and elapsed label pos_name, emit a
segment and advance by int((length + skip) * sample_rate) until the
cursor reaches the end of the data; `none` means the fuel ran out
before the loop finished. -/
def sliceLoop (length skip : ℚ) (name : String) (w : Wav) :
    ℕ → ℤ → ℚ → Option (List Segment)
  | fuel, begin_pos, pos_name =>
    if begin_pos < (w.data.length : ℤ) then
      match fuel with
      | 0 => none
      | fuel + 1 =>
        let end_pos := pyInt ((begin_pos : ℚ) + length * (w.sample_rate : ℚ))
        let seg : Segment :=
          ⟨name ++ ": " ++ format_time pos_name,
           ⟨w.sample_rate, pySlice w.data begin_pos end_pos⟩⟩
        (sliceLoop length skip name w fuel
            (begin_pos + pyInt ((length + skip) * (w.sample_rate : ℚ)))
            (pos_name + length + skip)).map (seg :: ·)
    else some []

/-- extract_slice: run the per-file loop over every input file in order
and concatenate the results, threading the fuel of each loop. -/
def extract_slice (length skip : ℚ) (fuel : ℕ) : List InFile → Option (List Segment)
  | [] => some []
  | f :: rest => do
    let segs ← sliceLoop length skip f.name f.wav fuel 0 0
    let more ← extract_slice length skip fuel rest
    pure (segs ++ more)

/-- extract_transition: for each adjacent pair of input files, the end
segment of the first followed by the beginning segment of the second;
fewer than two files leave the while loop body unentered. -/
def extract_transition (length : ℚ) : List InFile → Except PyErr (List Segment)
  | a :: b :: rest => do
    let endSegs ← extract_end length [a]
    let beginSegs ← extract_beginning length [b]
    let more ← extract_transition length (b :: rest)
    pure (endSegs ++ beginSegs ++ more)
  | _ => .ok []

/-- write_segments_to_wav: segments[0] raises IndexError on an empty
list; the bare assert that every sample rate equals the first raises an
AssertionError with an empty message; otherwise the sample data of all
segments is concatenated in order under the common sample rate. -/
def write_segments_to_wav : List Segment → Except PyErr Wav
  | [] => .error .indexError
  | s0 :: rest =>
    if (s0 :: rest).all (fun seg => seg.wav.sample_rate == s0.wav.sample_rate) then
      .ok ⟨s0.wav.sample_rate, ((s0 :: rest).map (fun seg => seg.wav.data)).flatten⟩
    else .error (.assertionError "")

/-- Dispatch selector standing for the extractor function that argparse
stores in args.extractor. -/
inductive ExtractMode where
  | beginning
  | ending
  | slice
  | transition
deriving DecidableEq

/-- Python comparison v <= 0 where v may be None: comparing None with a
number raises TypeError. -/
def pyLeZero : Option ℚ → Except PyErr Bool
  | none => .error .typeError
  | some v => .ok (decide (v ≤ 0))

/-- Validation and defaulting performed by parse_args after argparse
has filled in length and skip (None when the flag is absent) and the
positional inputs: lines 205 to 213 of the source, in source order.
The first line evaluates (args.length <= 0) or (args.skip <= 0) with
Python short-circuit evaluation before any defaulting happens. -/
def validate_args (mode : ExtractMode) (length skip : Option ℚ) (ninputs : ℕ) :
    Except PyErr (Option ℚ × Option ℚ) := do
  let lbad ← pyLeZero length
  let bad ← if lbad then pure true else pyLeZero skip
  if bad then
    Except.error (.parserError "Length and skip lengths must be greater than 0")
  else
    let length := if length = none then
        some (if mode = .beginning ∨ mode = .ending ∨ mode = .transition then (30 : ℚ) else 1)
      else length
    let skip := if mode = .slice ∧ skip = none then some (5 : ℚ) else skip
    if mode = .transition ∧ ninputs < 2 then
      Except.error (.parserError "2 or more input files are required for transition mode")
    else
      pure (length, skip)

/-- Unfolded form of the slice loop when the stride d is positive: the
list of segments emitted from cursor b onward. -/
def sliceRef (length skip : ℚ) (name : String) (w : Wav) (d : ℤ) (hd : 1 ≤ d)
    (b : ℤ) (p : ℚ) : List Segment :=
  if h : b < (w.data.length : ℤ) then
    ⟨name ++ ": " ++ format_time p,
     ⟨w.sample_rate, pySlice w.data b (pyInt ((b : ℚ) + length * (w.sample_rate : ℚ)))⟩⟩ ::
      sliceRef length skip name w d hd (b + d) (p + length + skip)
  else []
termination_by ((w.data.length : ℤ) - b).toNat
decreasing_by omega

lemma pyIdx_le (n : ℕ) (i : ℤ) : pyIdx n i ≤ n := by
  unfold pyIdx
  split
  · omega
  · exact min_le_right _ _

lemma pyIdx_zero (n : ℕ) : pyIdx n 0 = 0 := by
  simp [pyIdx]

lemma pyIdx_of_nonneg {i : ℤ} (h : 0 ≤ i) (n : ℕ) : pyIdx n i = min i.toNat n := by
  simp [pyIdx, not_lt.mpr h]

lemma pySlice_length (l : List α) (a b : ℤ) :
    (pySlice l a b).length = pyIdx l.length b - pyIdx l.length a := by
  unfold pySlice
  rw [List.length_drop, List.length_take, Nat.min_eq_left (pyIdx_le _ _)]

lemma pySlice_zero (l : List α) (b : ℤ) : pySlice l 0 b = l.take (pyIdx l.length b) := by
  simp [pySlice, pyIdx_zero]

lemma take_min_length (l : List α) (k : ℕ) : l.take (min k l.length) = l.take k := by
  rcases le_total k l.length with h | h
  · rw [min_eq_left h]
  · rw [min_eq_right h, List.take_length, List.take_of_length_le h]

lemma pyInt_of_nonneg {q : ℚ} (h : 0 ≤ q) : pyInt q = ⌊q⌋ := if_pos h

lemma pyInt_nonneg {q : ℚ} (h : 0 ≤ q) : 0 ≤ pyInt q := by
  rw [pyInt_of_nonneg h]
  exact Int.floor_nonneg.mpr h

lemma pyInt_intCast_add {m : ℤ} {q : ℚ} (hm : 0 ≤ m) (hq : 0 ≤ q) :
    pyInt ((m : ℚ) + q) = m + pyInt q := by
  rw [pyInt_of_nonneg hq, pyInt_of_nonneg (by positivity), Int.floor_int_add]

lemma sliceLoop_stop {length skip : ℚ} {name : String} {w : Wav} {fuel : ℕ} {b : ℤ} {p : ℚ}
    (hb : ¬ b < (w.data.length : ℤ)) :
    sliceLoop length skip name w fuel b p = some [] := by
  rw [sliceLoop.eq_def]
  exact if_neg hb

lemma sliceLoop_zero {length skip : ℚ} {name : String} {w : Wav} {b : ℤ} {p : ℚ}
    (hb : b < (w.data.length : ℤ)) :
    sliceLoop length skip name w 0 b p = none := by
  rw [sliceLoop.eq_def]
  exact if_pos hb

lemma sliceLoop_succ {length skip : ℚ} {name : String} {w : Wav} {fuel : ℕ} {b : ℤ} {p : ℚ}
    (hb : b < (w.data.length : ℤ)) :
    sliceLoop length skip name w (fuel + 1) b p =
      (sliceLoop length skip name w fuel
          (b + pyInt ((length + skip) * (w.sample_rate : ℚ)))
          (p + length + skip)).map
        (fun t =>
          (⟨name ++ ": " ++ format_time p,
            ⟨w.sample_rate, pySlice w.data b (pyInt ((b : ℚ) + length * (w.sample_rate : ℚ)))⟩⟩ : Segment) :: t) := by
  rw [sliceLoop.eq_def]
  exact if_pos hb

lemma sliceRef_stop {length skip : ℚ} {name : String} {w : Wav} {d : ℤ} {hd : 1 ≤ d}
    {b : ℤ} {p : ℚ} (hb : ¬ b < (w.data.length : ℤ)) :
    sliceRef length skip name w d hd b p = [] := by
  rw [sliceRef]
  exact dif_neg hb

lemma sliceRef_cons {length skip : ℚ} {name : String} {w : Wav} {d : ℤ} {hd : 1 ≤ d}
    {b : ℤ} {p : ℚ} (hb : b < (w.data.length : ℤ)) :
    sliceRef length skip name w d hd b p =
      ⟨name ++ ": " ++ format_time p,
       ⟨w.sample_rate, pySlice w.data b (pyInt ((b : ℚ) + length * (w.sample_rate : ℚ)))⟩⟩ ::
        sliceRef length skip name w d hd (b + d) (p + length + skip) := by
  rw [sliceRef]
  exact dif_pos hb

lemma sliceLoop_eq_sliceRef {length skip : ℚ} {name : String} {w : Wav}
    (hd : 1 ≤ pyInt ((length + skip) * (w.sample_rate : ℚ))) :
    ∀ (fuel : ℕ) (b : ℤ) (p : ℚ),
      (w.data.length : ℤ) ≤ b + fuel * pyInt ((length + skip) * (w.sample_rate : ℚ)) →
      sliceLoop length skip name w fuel b p =
        some (sliceRef length skip name w
                (pyInt ((length + skip) * (w.sample_rate : ℚ))) hd b p) := by
  intro fuel
  induction fuel with
  | zero =>
    intro b p hfuel
    have hb : ¬ b < (w.data.length : ℤ) := by push_cast at hfuel; omega
    rw [sliceLoop_stop hb, sliceRef_stop hb]
  | succ fuel ih =>
    intro b p hfuel
    by_cases hb : b < (w.data.length : ℤ)
    · have hfuel2 : (w.data.length : ℤ) ≤
          (b + pyInt ((length + skip) * (w.sample_rate : ℚ))) +
            fuel * pyInt ((length + skip) * (w.sample_rate : ℚ)) := by
        have e : ((fuel + 1 : ℕ) : ℤ) * pyInt ((length + skip) * (w.sample_rate : ℚ)) =
            (fuel : ℤ) * pyInt ((length + skip) * (w.sample_rate : ℚ)) +
              pyInt ((length + skip) * (w.sample_rate : ℚ)) := by
          push_cast
          ring
        rw [e] at hfuel
        linarith
      rw [sliceLoop_succ hb, ih _ _ hfuel2, sliceRef_cons hb]
      rfl
    · rw [sliceLoop_stop hb, sliceRef_stop hb]

lemma sliceRef_get? (length skip : ℚ) (name : String) (w : Wav) (d : ℤ) (hd : 1 ≤ d) :
    ∀ (k : ℕ) (b : ℤ) (p : ℚ),
      (sliceRef length skip name w d hd b p).get? k =
        if b + k * d < (w.data.length : ℤ) then
          some ⟨name ++ ": " ++ format_time (p + k * (length + skip)),
                ⟨w.sample_rate, pySlice w.data (b + k * d)
                   (pyInt (((b + k * d : ℤ) : ℚ) + length * (w.sample_rate : ℚ)))⟩⟩
        else none := by
  intro k
  induction k with
  | zero =>
    intro b p
    by_cases hb : b < (w.data.length : ℤ)
    · rw [sliceRef_cons hb]
      simp only [List.get?_cons_zero, Nat.cast_zero, zero_mul, add_zero]
      rw [if_pos hb]
    · rw [sliceRef_stop hb]
      simp only [List.get?_nil, Nat.cast_zero, zero_mul, add_zero]
      rw [if_neg hb]
  | succ k ih =>
    intro b p
    by_cases hb : b < (w.data.length : ℤ)
    · rw [sliceRef_cons hb]
      simp only [List.get?_cons_succ]
      rw [ih (b + d) (p + length + skip)]
      have e1 : b + d + (k : ℤ) * d = b + ((k + 1 : ℕ) : ℤ) * d := by
        push_cast
        ring
      have e2 : p + length + skip + (k : ℚ) * (length + skip) =
          p + ((k + 1 : ℕ) : ℚ) * (length + skip) := by
        push_cast
        ring
      rw [e1, e2]
    · rw [sliceRef_stop hb]
      simp only [List.get?_nil]
      rw [if_neg]
      intro hcon
      have hk : (0 : ℤ) ≤ ((k + 1 : ℕ) : ℤ) * d := by
        have : (0 : ℤ) ≤ ((k + 1 : ℕ) : ℤ) := by positivity
        nlinarith
      omega

lemma sliceRef_lt_length_iff {length skip : ℚ} {name : String} {w : Wav} {d : ℤ}
    {hd : 1 ≤ d} (k : ℕ) (b : ℤ) (p : ℚ) :
    k < (sliceRef length skip name w d hd b p).length ↔
      b + k * d < (w.data.length : ℤ) := by
  have hget := sliceRef_get? length skip name w d hd k b p
  by_cases hc : b + k * d < (w.data.length : ℤ)
  · rw [if_pos hc] at hget
    have : k < (sliceRef length skip name w d hd b p).length := by
      by_contra hle
      rw [List.get?_eq_none.mpr (by omega)] at hget
      cases hget
    simp [this, hc]
  · rw [if_neg hc] at hget
    have : ¬ k < (sliceRef length skip name w d hd b p).length := by
      intro hlt
      rcases List.get?_eq_get hlt with hsome
      rw [hsome] at hget
      cases hget
    simp [this, hc]

lemma extract_slice_singleton (length skip : ℚ) (fuel : ℕ) (name : String) (w : Wav) :
    extract_slice length skip fuel [⟨name, w⟩] =
      sliceLoop length skip name w fuel 0 0 := by
  unfold extract_slice
  cases h : sliceLoop length skip name w fuel 0 0 with
  | none => rfl
  | some s => simp [extract_slice, h]

lemma sliceLoop_stride_zero (length skip : ℚ) (name : String) (w : Wav)
    (h0 : pyInt ((length + skip) * (w.sample_rate : ℚ)) = 0) (hne : w.data ≠ []) :
    ∀ (fuel : ℕ) (p : ℚ), sliceLoop length skip name w fuel 0 p = none := by
  have hb : (0 : ℤ) < (w.data.length : ℤ) := by
    have := List.length_pos.mpr hne
    exact_mod_cast this
  intro fuel
  induction fuel with
  | zero =>
    intro p
    exact sliceLoop_zero hb
  | succ fuel ih =>
    intro p
    rw [sliceLoop_succ hb, h0, add_zero, ih]
    rfl

/-- C1 (amended): with length > 0, skip > 0, a positive sample rate and a
positive truncated stride int((length + skip) * sampleRate), extract_slice
on one file finishes within fuel sourceLength + 1 and emits segments whose
start cursors are exactly the multiples k * stride below sourceLength, each
segment being the slice from its start cursor to start + int(length *
sampleRate) clamped at the buffer end, at the source sample rate, and a
segment whose tail room sourceLength - start is smaller than int(length *
sampleRate) has exactly sourceLength - start samples (clamped, not
dropped). -/
theorem extract_slice_stride_spec (length skip : ℚ) (name : String) (w : Wav)
    (hl : 0 < length) (hs : 0 < skip) (hr : 0 < w.sample_rate)
    (hd : 1 ≤ pyInt ((length + skip) * (w.sample_rate : ℚ))) :
    ∃ segs, extract_slice length skip (w.data.length + 1) [⟨name, w⟩] = some segs ∧
      (∀ k : ℕ, k < segs.length ↔
        (k : ℤ) * pyInt ((length + skip) * (w.sample_rate : ℚ)) < (w.data.length : ℤ)) ∧
      (∀ (k : ℕ) (hk : k < segs.length),
        (segs.get ⟨k, hk⟩).wav.data =
          pySlice w.data ((k : ℤ) * pyInt ((length + skip) * (w.sample_rate : ℚ)))
            ((k : ℤ) * pyInt ((length + skip) * (w.sample_rate : ℚ)) +
              pyInt (length * (w.sample_rate : ℚ)))) ∧
      (∀ (k : ℕ) (hk : k < segs.length),
        (segs.get ⟨k, hk⟩).wav.sample_rate = w.sample_rate) ∧
      (∀ (k : ℕ) (hk : k < segs.length),
        (w.data.length : ℤ) - (k : ℤ) * pyInt ((length + skip) * (w.sample_rate : ℚ)) <
            pyInt (length * (w.sample_rate : ℚ)) →
          ((segs.get ⟨k, hk⟩).wav.data).length =
            ((w.data.length : ℤ) -
              (k : ℤ) * pyInt ((length + skip) * (w.sample_rate : ℚ))).toNat) := by
  have hq : (0 : ℚ) ≤ length * (w.sample_rate : ℚ) := by positivity
  have hL : 0 ≤ pyInt (length * (w.sample_rate : ℚ)) := pyInt_nonneg hq
  refine ⟨sliceRef length skip name w (pyInt ((length + skip) * (w.sample_rate : ℚ))) hd 0 0,
    ?_, ?_, ?_, ?_, ?_⟩
  · rw [extract_slice_singleton]
    apply sliceLoop_eq_sliceRef hd
    have hmul : ((w.data.length + 1 : ℕ) : ℤ) * 1 ≤
        ((w.data.length + 1 : ℕ) : ℤ) * pyInt ((length + skip) * (w.sample_rate : ℚ)) :=
      mul_le_mul_of_nonneg_left hd (by positivity)
    push_cast at hmul ⊢
    linarith
  · intro k
    rw [sliceRef_lt_length_iff k 0 0, zero_add]
  · intro k hk
    have hcond : (0 : ℤ) + k * pyInt ((length + skip) * (w.sample_rate : ℚ)) <
        (w.data.length : ℤ) :=
      (sliceRef_lt_length_iff k 0 0).mp hk
    have hget := sliceRef_get? length skip name w
      (pyInt ((length + skip) * (w.sample_rate : ℚ))) hd k 0 0
    rw [if_pos hcond, List.get?_eq_get hk] at hget
    rw [Option.some_inj] at hget
    rw [hget]
    have hm : (0 : ℤ) ≤ (k : ℤ) * pyInt ((length + skip) * (w.sample_rate : ℚ)) := by
      have : (0 : ℤ) ≤ pyInt ((length + skip) * (w.sample_rate : ℚ)) := by linarith
      positivity
    simp only [zero_add]
    rw [pyInt_intCast_add hm hq]
  · intro k hk
    have hcond : (0 : ℤ) + k * pyInt ((length + skip) * (w.sample_rate : ℚ)) <
        (w.data.length : ℤ) :=
      (sliceRef_lt_length_iff k 0 0).mp hk
    have hget := sliceRef_get? length skip name w
      (pyInt ((length + skip) * (w.sample_rate : ℚ))) hd k 0 0
    rw [if_pos hcond, List.get?_eq_get hk] at hget
    rw [Option.some_inj] at hget
    rw [hget]
  · intro k hk hclamp
    have hcond : (0 : ℤ) + k * pyInt ((length + skip) * (w.sample_rate : ℚ)) <
        (w.data.length : ℤ) :=
      (sliceRef_lt_length_iff k 0 0).mp hk
    have hget := sliceRef_get? length skip name w
      (pyInt ((length + skip) * (w.sample_rate : ℚ))) hd k 0 0
    rw [if_pos hcond, List.get?_eq_get hk] at hget
    rw [Option.some_inj] at hget
    rw [hget]
    have hm : (0 : ℤ) ≤ (k : ℤ) * pyInt ((length + skip) * (w.sample_rate : ℚ)) := by
      have : (0 : ℤ) ≤ pyInt ((length + skip) * (w.sample_rate : ℚ)) := by linarith
      positivity
    simp only [zero_add]
    rw [pyInt_intCast_add hm hq, pySlice_length,
      pyIdx_of_nonneg (by linarith), pyIdx_of_nonneg hm]
    rw [zero_add] at hcond
    omega

/-- C1 witness input. -/
theorem extract_slice_stride_spec_witness :
    (0 : ℚ) < 2 ∧ (0 : ℚ) < 1 ∧ 0 < (Wav.mk 1 [10, 20, 30, 40]).sample_rate ∧
      1 ≤ pyInt (((2 : ℚ) + 1) * ((Wav.mk 1 [10, 20, 30, 40]).sample_rate : ℚ)) ∧
      ∃ segs, extract_slice 2 1 5 [⟨"a", ⟨1, [10, 20, 30, 40]⟩⟩] = some segs := by
  have hd : 1 ≤ pyInt (((2 : ℚ) + 1) * ((Wav.mk 1 [10, 20, 30, 40]).sample_rate : ℚ)) := by
    rw [pyInt_of_nonneg (by norm_num)]
    norm_num
  refine ⟨by norm_num, by norm_num, by norm_num, hd, ?_⟩
  obtain ⟨segs, h1, _⟩ := extract_slice_stride_spec 2 1 "a" ⟨1, [10, 20, 30, 40]⟩
    (by norm_num) (by norm_num) (by norm_num) hd
  exact ⟨segs, h1⟩

/-- C1 counterexample: with the valid parameters length = 1/8, skip = 1/4
and sample rate 1 the truncated stride is 0, the while loop of
extract_slice never advances, and no segment list is ever produced,
whatever the fuel. -/
theorem extract_slice_stride_zero_no_output :
    ¬ ∃ (fuel : ℕ) (segs : List Segment),
        extract_slice (1/8) (1/4) fuel [⟨"b", ⟨1, [0, 0]⟩⟩] = some segs := by
  rintro ⟨fuel, segs, h⟩
  rw [extract_slice_singleton, sliceLoop_stride_zero (1/8) (1/4) "b" ⟨1, [0, 0]⟩
    (by rw [pyInt_of_nonneg (by norm_num)]; norm_num) (by simp) fuel 0] at h
  cases h

/-- C7 (amended): whenever the truncated stride int((length + skip) *
sampleRate) is at least 1, the per-file while loop of extract_slice
terminates: fuel sourceLength + 1 suffices and it returns a finite
segment list. -/
theorem slice_loop_terminates_amended (length skip : ℚ) (name : String) (w : Wav)
    (hd : 1 ≤ pyInt ((length + skip) * (w.sample_rate : ℚ))) :
    ∃ segs, sliceLoop length skip name w (w.data.length + 1) 0 0 = some segs := by
  refine ⟨_, sliceLoop_eq_sliceRef hd (w.data.length + 1) 0 0 ?_⟩
  have hmul : ((w.data.length + 1 : ℕ) : ℤ) * 1 ≤
      ((w.data.length + 1 : ℕ) : ℤ) * pyInt ((length + skip) * (w.sample_rate : ℚ)) :=
    mul_le_mul_of_nonneg_left hd (by positivity)
  push_cast at hmul ⊢
  linarith

/-- C7 witness input. -/
theorem slice_loop_terminates_amended_witness :
    1 ≤ pyInt (((1 : ℚ) + 1) * ((Wav.mk 1 [5]).sample_rate : ℚ)) ∧
      ∃ segs, sliceLoop 1 1 "a" ⟨1, [5]⟩ 2 0 0 = some segs := by
  have hd : 1 ≤ pyInt (((1 : ℚ) + 1) * ((Wav.mk 1 [5]).sample_rate : ℚ)) := by
    rw [pyInt_of_nonneg (by norm_num)]
    norm_num
  exact ⟨hd, slice_loop_terminates_amended 1 1 "a" ⟨1, [5]⟩ hd⟩

/-- C7 counterexample: length = 1/4 and skip = 1/4 are valid parameters
(both positive) and the sample rate 1 is a positive integer, yet the
truncated stride is int(1/2) = 0 and the loop never terminates on a
nonempty buffer: no fuel makes it finish. -/
theorem slice_loop_diverges_counterexample :
    ¬ ∃ (fuel : ℕ) (segs : List Segment),
        sliceLoop (1/4) (1/4) "a" ⟨1, [7]⟩ fuel 0 0 = some segs := by
  rintro ⟨fuel, segs, h⟩
  rw [sliceLoop_stride_zero (1/4) (1/4) "a" ⟨1, [7]⟩
    (by rw [pyInt_of_nonneg (by norm_num)]; norm_num) (by simp) fuel 0] at h
  cases h

/-- C2: for positive length, extract_beginning on a nonempty input list
decodes only the first file and returns exactly one segment whose data is
the prefix data[0 : int(length * sampleRate)] of that file, at the same
sample rate, so its sample count is min(int(length * sampleRate),
sourceLength); an overlong request silently clamps to the buffer end. -/
theorem extract_beginning_spec (length : ℚ) (f : InFile) (rest : List InFile)
    (hl : 0 < length) :
    ∃ s, extract_beginning length (f :: rest) = .ok [s] ∧
      s.wav.sample_rate = f.wav.sample_rate ∧
      s.wav.data = f.wav.data.take (pyInt (length * (f.wav.sample_rate : ℚ))).toNat ∧
      s.wav.data.length =
        min (pyInt (length * (f.wav.sample_rate : ℚ))).toNat f.wav.data.length := by
  have hq : (0 : ℚ) ≤ length * (f.wav.sample_rate : ℚ) := by positivity
  have he : 0 ≤ pyInt (length * (f.wav.sample_rate : ℚ)) := pyInt_nonneg hq
  refine ⟨beginning_segment length f, rfl, rfl, ?_, ?_⟩
  · show pySlice f.wav.data 0 (pyInt (length * (f.wav.sample_rate : ℚ))) = _
    rw [pySlice_zero, pyIdx_of_nonneg he, take_min_length]
  · show (pySlice f.wav.data 0 (pyInt (length * (f.wav.sample_rate : ℚ)))).length = _
    rw [pySlice_length, pyIdx_zero, pyIdx_of_nonneg he]
    omega

/-- C2 witness input. -/
theorem extract_beginning_spec_witness :
    (0 : ℚ) < 3 ∧ ∃ s, extract_beginning 3 [⟨"a", ⟨1, [1, 2]⟩⟩] = .ok [s] := by
  refine ⟨by norm_num, ?_⟩
  obtain ⟨s, h1, _⟩ := extract_beginning_spec 3 ⟨"a", ⟨1, [1, 2]⟩⟩ [] (by norm_num)
  exact ⟨s, h1⟩

/-- C3 (amended): for positive length, extract_end on a nonempty input
list decodes only the first file and returns exactly one segment at the
same sample rate, taken from the tail of the buffer; whenever the
truncated count int(length * sampleRate) is at least 1 the segment is
data[sourceLength - min(count, sourceLength):] and its sample count is
min(int(length * sampleRate), sourceLength), but when the truncation
yields 0 the segment is the whole buffer instead of an empty one. -/
theorem extract_end_spec_amended (length : ℚ) (f : InFile) (rest : List InFile)
    (hl : 0 < length) :
    ∃ s, extract_end length (f :: rest) = .ok [s] ∧
      s.wav.sample_rate = f.wav.sample_rate ∧
      (1 ≤ pyInt (length * (f.wav.sample_rate : ℚ)) →
        s.wav.data =
          f.wav.data.drop
            (f.wav.data.length - (pyInt (length * (f.wav.sample_rate : ℚ))).toNat) ∧
        s.wav.data.length =
          min (pyInt (length * (f.wav.sample_rate : ℚ))).toNat f.wav.data.length) ∧
      (pyInt (length * (f.wav.sample_rate : ℚ)) = 0 → s.wav.data = f.wav.data) := by
  refine ⟨end_segment length f, rfl, rfl, ?_, ?_⟩
  · intro h1
    constructor
    · show pySliceFrom f.wav.data (-(pyInt (length * (f.wav.sample_rate : ℚ)))) = _
      unfold pySliceFrom
      congr 1
      rw [pyIdx, if_pos (by omega)]
      omega
    · show (pySliceFrom f.wav.data (-(pyInt (length * (f.wav.sample_rate : ℚ))))).length = _
      unfold pySliceFrom
      rw [List.length_drop, pyIdx, if_pos (by omega)]
      omega
  · intro h0
    show pySliceFrom f.wav.data (-(pyInt (length * (f.wav.sample_rate : ℚ)))) = _
    rw [h0, neg_zero]
    unfold pySliceFrom
    rw [pyIdx_zero, List.drop_zero]

/-- C3 witness input. -/
theorem extract_end_spec_amended_witness :
    (0 : ℚ) < 2 ∧ ∃ s, extract_end 2 [⟨"a", ⟨1, [1, 2, 3]⟩⟩] = .ok [s] := by
  refine ⟨by norm_num, ?_⟩
  obtain ⟨s, h1, _⟩ := extract_end_spec_amended 2 ⟨"a", ⟨1, [1, 2, 3]⟩⟩ [] (by norm_num)
  exact ⟨s, h1⟩

/-- C3 counterexample: on a 3-sample buffer at sample rate 1 with the
valid length 1/2, the truncated count is int(1/2) = 0, so the claimed
sample count min(int(length * sampleRate), sourceLength) is 0, yet the
code returns the whole 3-sample buffer: begin_pos is -0 = 0, and the
slice data[0:] spans everything. -/
theorem extract_end_count_counterexample :
    (extract_end (1/2) [⟨"a", ⟨1, [7, 8, 9]⟩⟩]).map
        (fun segs => segs.map (fun s => s.wav.data)) = .ok [[7, 8, 9]] ∧
      ([(7 : ℤ), 8, 9].length : ℕ) ≠
        min (pyInt ((1/2 : ℚ) * ((1 : ℕ) : ℚ))).toNat [(7 : ℤ), 8, 9].length := by
  have h0 : pyInt ((1/2 : ℚ) * ((1 : ℕ) : ℚ)) = 0 := by
    rw [pyInt_of_nonneg (by norm_num)]
    norm_num
  constructor
  · have hdata : (end_segment (1/2) ⟨"a", ⟨1, [7, 8, 9]⟩⟩).wav.data = [7, 8, 9] := by
      show pySliceFrom [(7 : ℤ), 8, 9] (-(pyInt ((1/2 : ℚ) * ((1 : ℕ) : ℚ)))) = _
      rw [h0, neg_zero]
      unfold pySliceFrom
      rw [pyIdx_zero, List.drop_zero]
    show (Except.ok [end_segment (1/2) ⟨"a", ⟨1, [7, 8, 9]⟩⟩]).map
        (fun segs => segs.map (fun s => s.wav.data)) = _
    simp only [Except.map, List.map_cons, List.map_nil, hdata]
  · rw [h0]
    simp

/-- C9: when 0 < length * sampleRate < 1 on a nonempty buffer, the
truncated sample count is 0, the negative start index degenerates to -0
= 0, and extract_end returns one segment containing the entire source
buffer rather than an empty segment. -/
theorem extract_end_degenerate_whole_buffer (length : ℚ) (name : String) (w : Wav)
    (h0 : 0 < length * (w.sample_rate : ℚ)) (h1 : length * (w.sample_rate : ℚ) < 1)
    (hne : w.data ≠ []) :
    extract_end length [⟨name, w⟩] =
      .ok [⟨name ++ ": Last " ++ toString length ++ " seconds",
            ⟨w.sample_rate, w.data⟩⟩] := by
  have hz : pyInt (length * (w.sample_rate : ℚ)) = 0 := by
    rw [pyInt_of_nonneg h0.le, Int.floor_eq_zero_iff]
    exact Set.mem_Ico.mpr ⟨h0.le, h1⟩
  simp only [extract_end, end_segment, hz, neg_zero, pySliceFrom, pyIdx_zero,
    List.drop_zero]

/-- C9 witness input. -/
theorem extract_end_degenerate_whole_buffer_witness :
    0 < (1/2 : ℚ) * (((Wav.mk 1 [3]).sample_rate : ℕ) : ℚ) ∧
      (1/2 : ℚ) * (((Wav.mk 1 [3]).sample_rate : ℕ) : ℚ) < 1 ∧
      (Wav.mk 1 [3]).data ≠ [] ∧
      extract_end (1/2) [⟨"a", ⟨1, [3]⟩⟩] =
        .ok [⟨"a" ++ ": Last " ++ toString (1/2 : ℚ) ++ " seconds", ⟨1, [3]⟩⟩] := by
  refine ⟨by norm_num, by norm_num, by simp, ?_⟩
  exact extract_end_degenerate_whole_buffer (1/2) "a" ⟨1, [3]⟩
    (by norm_num) (by norm_num) (by simp)

lemma extract_transition_eq (length : ℚ) :
    ∀ inputs : List InFile,
      extract_transition length inputs =
        .ok ((inputs.zip inputs.tail).flatMap
          (fun p => [end_segment length p.1, beginning_segment length p.2])) := by
  intro inputs
  induction inputs with
  | nil => rfl
  | cons a tail ih =>
    cases tail with
    | nil => rfl
    | cons b rest =>
      show (extract_transition length (b :: rest) >>= fun more =>
          pure ([end_segment length a] ++ [beginning_segment length b] ++ more) :
            Except PyErr (List Segment)) = _
      rw [ih]
      rfl

lemma flatMap_pair_length (length : ℚ) (l : List (InFile × InFile)) :
    (l.flatMap (fun p => [end_segment length p.1, beginning_segment length p.2])).length =
      2 * l.length := by
  induction l with
  | nil => rfl
  | cons x xs ih =>
    simp only [List.flatMap_cons, List.length_append, List.length_cons, ih]
    simp only [List.length_nil]
    omega

/-- C4: with at least two input files, extract_transition returns
exactly 2 * (N - 1) segments, namely, for each adjacent pair of files in
order, the end segment of the first file followed by the beginning
segment of the second, each pair decoded on its own. -/
theorem extract_transition_spec (length : ℚ) (inputs : List InFile)
    (h : 2 ≤ inputs.length) :
    ∃ segs, extract_transition length inputs = .ok segs ∧
      segs = (inputs.zip inputs.tail).flatMap
        (fun p => [end_segment length p.1, beginning_segment length p.2]) ∧
      segs.length = 2 * (inputs.length - 1) := by
  refine ⟨_, extract_transition_eq length inputs, rfl, ?_⟩
  rw [flatMap_pair_length, List.length_zip, List.length_tail]
  omega

/-- C4 witness input. -/
theorem extract_transition_spec_witness :
    2 ≤ ([⟨"a", ⟨1, [1]⟩⟩, ⟨"b", ⟨1, [2]⟩⟩] : List InFile).length ∧
      ∃ segs, extract_transition 1 [⟨"a", ⟨1, [1]⟩⟩, ⟨"b", ⟨1, [2]⟩⟩] = .ok segs ∧
        segs.length = 2 * (([⟨"a", ⟨1, [1]⟩⟩, ⟨"b", ⟨1, [2]⟩⟩] : List InFile).length - 1) := by
  refine ⟨by norm_num, ?_⟩
  obtain ⟨segs, h1, _, h3⟩ := extract_transition_spec 1
    [⟨"a", ⟨1, [1]⟩⟩, ⟨"b", ⟨1, [2]⟩⟩] (by norm_num)
  exact ⟨segs, h1, h3⟩

/-- C5: when every segment carries the sample rate of the first one,
write_segments_to_wav returns one buffer at that common rate whose data
is exactly the concatenation of the segment data in list order, and on a
single segment it returns that segment data unchanged. -/
theorem write_segments_concat_spec (s : Segment) (rest : List Segment)
    (h : ∀ t ∈ rest, t.wav.sample_rate = s.wav.sample_rate) :
    write_segments_to_wav (s :: rest) =
      .ok ⟨s.wav.sample_rate, ((s :: rest).map (fun t => t.wav.data)).flatten⟩ ∧
      write_segments_to_wav [s] = .ok ⟨s.wav.sample_rate, s.wav.data⟩ := by
  constructor
  · have hall : ((s :: rest).all (fun seg => seg.wav.sample_rate == s.wav.sample_rate)) = true := by
      rw [List.all_eq_true]
      intro t ht
      rcases List.mem_cons.mp ht with h1 | h2
      · rw [h1]
        exact beq_self_eq_true _
      · exact beq_iff_eq.mpr (h t h2)
    simp [write_segments_to_wav, hall]
  · simp [write_segments_to_wav]

/-- C5 witness input. -/
theorem write_segments_concat_spec_witness :
    (∀ t ∈ [Segment.mk "b" ⟨1, [3]⟩],
        t.wav.sample_rate = (Segment.mk "a" ⟨1, [1, 2]⟩).wav.sample_rate) ∧
      write_segments_to_wav [⟨"a", ⟨1, [1, 2]⟩⟩, ⟨"b", ⟨1, [3]⟩⟩] =
        .ok ⟨(Segment.mk "a" ⟨1, [1, 2]⟩).wav.sample_rate,
          (([⟨"a", ⟨1, [1, 2]⟩⟩, ⟨"b", ⟨1, [3]⟩⟩] : List Segment).map
            (fun t => t.wav.data)).flatten⟩ := by
  have h : ∀ t ∈ [Segment.mk "b" ⟨1, [3]⟩],
      t.wav.sample_rate = (Segment.mk "a" ⟨1, [1, 2]⟩).wav.sample_rate := by decide
  exact ⟨h, (write_segments_concat_spec ⟨"a", ⟨1, [1, 2]⟩⟩ [⟨"b", ⟨1, [3]⟩⟩] h).1⟩

/-- C6 (amended): a list of two segments with different sample rates
makes write_segments_to_wav fail in either order and produce no output
buffer, but the failure is the bare assert of the source, an
AssertionError with an empty message that does not name the offending
segment label. -/
theorem write_segments_mismatch_amended (s1 s2 : Segment)
    (h : s1.wav.sample_rate ≠ s2.wav.sample_rate) :
    write_segments_to_wav [s1, s2] = .error (.assertionError "") ∧
      write_segments_to_wav [s2, s1] = .error (.assertionError "") := by
  constructor
  · have hall : (([s1, s2]).all (fun seg => seg.wav.sample_rate == s1.wav.sample_rate)) = false := by
      simp only [List.all_cons, List.all_nil, Bool.and_true, beq_self_eq_true, Bool.true_and]
      exact beq_eq_false_iff_ne.mpr (Ne.symm h)
    simp [write_segments_to_wav, hall]
  · have hall : (([s2, s1]).all (fun seg => seg.wav.sample_rate == s2.wav.sample_rate)) = false := by
      simp only [List.all_cons, List.all_nil, Bool.and_true, beq_self_eq_true, Bool.true_and]
      exact beq_eq_false_iff_ne.mpr h
    simp [write_segments_to_wav, hall]

/-- C6 witness input. -/
theorem write_segments_mismatch_amended_witness :
    (Segment.mk "a" ⟨1, [0]⟩).wav.sample_rate ≠ (Segment.mk "b" ⟨2, [0]⟩).wav.sample_rate ∧
      write_segments_to_wav [⟨"a", ⟨1, [0]⟩⟩, ⟨"b", ⟨2, [0]⟩⟩] =
        .error (.assertionError "") := by
  have h : (Segment.mk "a" ⟨1, [0]⟩).wav.sample_rate ≠
      (Segment.mk "b" ⟨2, [0]⟩).wav.sample_rate := by decide
  exact ⟨h, (write_segments_mismatch_amended ⟨"a", ⟨1, [0]⟩⟩ ⟨"b", ⟨2, [0]⟩⟩ h).1⟩

/-- C6 counterexample: on two mismatched segments labeled a and b the
produced failure is an AssertionError whose message is the empty string,
while the offending segment label is the nonempty string b: the failure
does not name the offending segment label, contrary to the claim. -/
theorem write_segments_mismatch_counterexample :
    write_segments_to_wav [⟨"a", ⟨1, [0]⟩⟩, ⟨"c", ⟨2, [0]⟩⟩] =
        .error (.assertionError "") ∧
      (Segment.mk "c" ⟨2, [0]⟩).time ≠ "" := by
  constructor
  · rfl
  · decide

/-- C8 (amended): on a too-short input list no strategy raises the
InvalidInput error of the specification: extract_beginning and
extract_end raise an index fault (IndexError from inputs[0]) on an empty
list, while extract_slice on an empty list and extract_transition on
fewer than two files silently succeed with an empty segment list;
list-length validation lives upstream in argument parsing. -/
theorem too_short_inputs_amended (length skip : ℚ) (fuel : ℕ) (f : InFile) :
    extract_beginning length [] = .error .indexError ∧
      extract_end length [] = .error .indexError ∧
      extract_slice length skip fuel [] = some [] ∧
      extract_transition length [] = .ok [] ∧
      extract_transition length [f] = .ok [] :=
  ⟨rfl, rfl, rfl, rfl, rfl⟩

/-- C8 counterexample: concrete too-short inputs on which the claimed
InvalidInput error does not appear: extract_beginning on an empty list
gives an IndexError, which differs from InvalidInput, and extract_slice
on an empty list and extract_transition on one file succeed silently. -/
theorem too_short_inputs_counterexample :
    extract_beginning 3 [] = .error .indexError ∧
      PyErr.indexError ≠ PyErr.invalidInput ∧
      extract_slice 1 1 7 [] = some [] ∧
      extract_transition 3 [⟨"a", ⟨1, [0]⟩⟩] = .ok [] :=
  ⟨rfl, by decide, rfl, rfl⟩

/-- C10: the unconditional validation (args.length <= 0) or (args.skip
<= 0) on line 205 of the source compares None with 0 whenever length or
skip was not given on the command line, so parsing raises TypeError
before the defaulting on lines 207 to 210 can run: with length absent
(any mode), or with skip absent even when length is supplied (slice
mode shown), validate_args returns the TypeError instead of assigning
the documented defaults and completing. -/
theorem validate_args_type_error :
    validate_args .beginning none none 1 = .error .typeError ∧
      validate_args .beginning none (some 5) 1 = .error .typeError ∧
      validate_args .transition none (some 5) 2 = .error .typeError ∧
      validate_args .slice (some 2) none 1 = .error .typeError := by
  exact ⟨rfl, rfl, rfl, rfl⟩
